import Mathlib

/-!
Shallow embedding of the `aligned_vec` crate (src/src/lib.rs): three
constructors for aligned, optionally touched or filled, optionally
page-locked `Vec`s.

Machine-level aspects are made explicit parameters:
* `sizeT` stands for `std::mem::size_of::<T>()` and `ps` for
  `page_size::get()`;
* the global allocator is a function `alloc : Nat → Nat → Nat` taking the
  byte size and the alignment of the `Layout` and returning the base
  address of the allocated block;
* the outcome of the `nix::sys::mman::mlock` syscall is an oracle
  `mlockOk : Nat → Nat → Bool` of the address and byte length;
* a Rust panic (an out-of-bounds `v[i] = x`, a failed `.unwrap()`) is
  `none`;
* besides its value, each constructor returns the list of heap
  allocations it performed (byte size, align), and `page_aligned_vec`
  additionally the list of `mlock` calls it issued (address, byte length).
-/

namespace AlignedVec

/-- Model of a Rust `Vec<T>`: the recorded length and capacity (in
elements, exactly the two numbers stored in the `Vec` header), the base
address of the backing memory, and the logical contents (`none` means the
slot is uninitialized). -/
structure RustVec (α : Type) where
  len : Nat
  capacity : Nat
  baseAddr : Nat
  data : Nat → Option α

/-- `Vec::<T>::new()`: empty, zero capacity, dangling base pointer (the
concrete dangling address is irrelevant to the claims; we fix it to 1). -/
def RustVec.new (α : Type) : RustVec α :=
  { len := 0, capacity := 0, baseAddr := 1, data := fun _ => none }

/-- `Vec::from_raw_parts(ptr, len, cap)` over freshly allocated,
uninitialized memory. -/
def fromRawParts (α : Type) (ptr len cap : Nat) : RustVec α :=
  { len := len, capacity := cap, baseAddr := ptr, data := fun _ => none }

/-- The store `v[i] = x` with the bounds check stripped off (the check is
performed by `touchLoop`, where the store occurs in the source). -/
def RustVec.set (v : RustVec α) (i : Nat) (x : α) : RustVec α :=
  { v with data := fun j => if j = i then some x else v.data j }

/-- `v.fill(x)`: write `x` into every position below `len`. -/
def RustVec.fill (v : RustVec α) (x : α) : RustVec α :=
  { v with data := fun j => if j < v.len then some x else v.data j }

/-- The index sequence of `(0..n).step_by(ps)`: the multiples of `ps`
below `n`, in increasing order. Faithful for `ps > 0`; Rust panics on
`step_by(0)`, and every page size is positive, so theorems that depend on
the stepping carry `0 < ps`. -/
def stepIndices (n ps : Nat) : List Nat :=
  (List.range n).filter (fun i => i % ps == 0)

/-- The touch loop `for i in (0..size).step_by(page_size::get()) { v[i] = x }`:
`Vec`'s `IndexMut` panics (modelled as `none`) when `i ≥ v.len`. -/
def touchLoop (x : α) : List Nat → RustVec α → Option (RustVec α)
  | [], v => some v
  | i :: rest, v => if i < v.len then touchLoop x rest (v.set i x) else none

/-- `aligned_vec::<T>(size, capacity, align, touch)` from src/src/lib.rs.
Note the source shadows `size` and `capacity` with byte counts and then
hands those byte counts to `Vec::from_raw_parts`, which interprets them as
element counts. -/
def aligned_vec (sizeT ps : Nat) (alloc : Nat → Nat → Nat)
    (size capacity align : Nat) (touch : Option α) :
    Option (RustVec α) × List (Nat × Nat) :=
  if size = 0 then
    (some (RustVec.new α), [])
  else
    let sizeB := size * sizeT
    let capB := max (capacity * sizeT) sizeB
    let rawPtr := alloc sizeB align
    match touch with
    | some x =>
        (touchLoop x (stepIndices sizeB ps) (fromRawParts α rawPtr sizeB capB),
          [(sizeB, align)])
    | none => (some (fromRawParts α rawPtr sizeB capB), [(sizeB, align)])

/-- `init_aligned_vec::<T>(size, capacity, align, x)` from src/src/lib.rs:
same allocation arithmetic as `aligned_vec`, then `v.fill(x)`. -/
def init_aligned_vec (sizeT : Nat) (alloc : Nat → Nat → Nat)
    (size capacity align : Nat) (x : α) : RustVec α × List (Nat × Nat) :=
  if size = 0 then
    (RustVec.new α, [])
  else
    let sizeB := size * sizeT
    let capB := max (capacity * sizeT) sizeB
    ((fromRawParts α (alloc sizeB align) sizeB capB).fill x, [(sizeB, align)])

/-- `page_aligned_vec::<T>(size, capacity, touch, page_locked)` from
src/src/lib.rs: delegates to `aligned_vec` with the page size as the
alignment; when `page_locked` it issues `mlock(v.as_ptr(), size)` (note:
`size` is the element count, taken as the byte length) and `.unwrap()`s
the result, panicking (`none`) on failure. -/
def page_aligned_vec (sizeT ps : Nat) (alloc : Nat → Nat → Nat)
    (mlockOk : Nat → Nat → Bool) (size capacity : Nat) (touch : Option α)
    (page_locked : Bool) :
    Option (RustVec α) × List (Nat × Nat) × List (Nat × Nat) :=
  match aligned_vec sizeT ps alloc size capacity ps touch with
  | (none, allocs) => (none, allocs, [])
  | (some v, allocs) =>
    if page_locked then
      ((if mlockOk v.baseAddr size then some v else none), allocs,
        [(v.baseAddr, size)])
    else
      (some v, allocs, [])

/-! ### Helper lemmas -/

theorem stepIndices_mem (n ps i : Nat) :
    i ∈ stepIndices n ps ↔ i < n ∧ i % ps = 0 := by
  simp [stepIndices, List.mem_filter, List.mem_range]

theorem touchLoop_shape (x : α) :
    ∀ (l : List Nat) (v w : RustVec α), touchLoop x l v = some w →
      w.len = v.len ∧ w.capacity = v.capacity ∧ w.baseAddr = v.baseAddr := by
  intro l
  induction l with
  | nil =>
    intro v w h
    cases h
    exact ⟨rfl, rfl, rfl⟩
  | cons i rest ih =>
    intro v w h
    simp only [touchLoop] at h
    by_cases hi : i < v.len
    · rw [if_pos hi] at h
      exact ih (v.set i x) w h
    · rw [if_neg hi] at h
      cases h

theorem touchLoop_preserve (x : α) :
    ∀ (l : List Nat) (v w : RustVec α), touchLoop x l v = some w →
      ∀ i, v.data i = some x → w.data i = some x := by
  intro l
  induction l with
  | nil =>
    intro v w h i hd
    cases h
    exact hd
  | cons j rest ih =>
    intro v w h i hd
    simp only [touchLoop] at h
    by_cases hj : j < v.len
    · rw [if_pos hj] at h
      refine ih _ _ h i ?_
      simp only [RustVec.set]
      by_cases hij : i = j
      · simp [hij]
      · simp [hij, hd]
    · rw [if_neg hj] at h
      cases h

theorem touchLoop_mem (x : α) :
    ∀ (l : List Nat) (v w : RustVec α), touchLoop x l v = some w →
      ∀ i ∈ l, w.data i = some x := by
  intro l
  induction l with
  | nil =>
    intro v w _ i hi
    cases hi
  | cons j rest ih =>
    intro v w h i hi
    simp only [touchLoop] at h
    by_cases hj : j < v.len
    · rw [if_pos hj] at h
      rcases List.mem_cons.mp hi with hij | hmem
      · subst hij
        refine touchLoop_preserve x rest _ _ h i ?_
        simp [RustVec.set]
      · exact ih _ _ h i hmem
    · rw [if_neg hj] at h
      cases h

theorem touchLoop_total (x : α) :
    ∀ (l : List Nat) (v : RustVec α), (∀ i ∈ l, i < v.len) →
      ∃ w, touchLoop x l v = some w := by
  intro l
  induction l with
  | nil =>
    intro v _
    exact ⟨v, rfl⟩
  | cons j rest ih =>
    intro v hb
    have hj : j < v.len := hb j (List.mem_cons_self j rest)
    have hrest : ∀ i ∈ rest, i < (v.set j x).len := by
      intro i hi
      exact hb i (List.mem_cons_of_mem j hi)
    obtain ⟨w, hw⟩ := ih (v.set j x) hrest
    exact ⟨w, by simp only [touchLoop, if_pos hj]; exact hw⟩

/-- Shape of any vec produced by `aligned_vec`: either the empty vec (when
`size = 0`) or a vec whose recorded length is the byte size, whose
recorded capacity is the byte capacity, and whose base address came from
the allocator. -/
theorem aligned_vec_shape (sizeT ps : Nat) (alloc : Nat → Nat → Nat)
    (size capacity align : Nat) (touch : Option α) (v : RustVec α)
    (hv : (aligned_vec sizeT ps alloc size capacity align touch).1 = some v) :
    (size = 0 ∧ v = RustVec.new α) ∨
    (0 < size ∧ v.len = size * sizeT ∧
      v.capacity = max (capacity * sizeT) (size * sizeT) ∧
      v.baseAddr = alloc (size * sizeT) align) := by
  by_cases hs : size = 0
  · left
    refine ⟨hs, ?_⟩
    simp only [aligned_vec, if_pos hs, Option.some.injEq] at hv
    exact hv.symm
  · right
    refine ⟨Nat.pos_of_ne_zero hs, ?_⟩
    simp only [aligned_vec, if_neg hs] at hv
    cases touch with
    | none =>
      simp only [Option.some.injEq] at hv
      subst hv
      exact ⟨rfl, rfl, rfl⟩
    | some x =>
      have h := touchLoop_shape x _ _ _ hv
      simpa [fromRawParts] using h

/-- A vec returned by `page_aligned_vec` is exactly a vec returned by
`aligned_vec` called with the page size as the alignment. -/
theorem page_aligned_vec_some (sizeT ps : Nat) (alloc : Nat → Nat → Nat)
    (mlockOk : Nat → Nat → Bool) (size capacity : Nat) (touch : Option α)
    (page_locked : Bool) (v : RustVec α)
    (hv : (page_aligned_vec sizeT ps alloc mlockOk size capacity touch
        page_locked).1 = some v) :
    (aligned_vec sizeT ps alloc size capacity ps touch).1 = some v := by
  unfold page_aligned_vec at hv
  cases h : aligned_vec sizeT ps alloc size capacity ps touch with
  | mk o allocs =>
    rw [h] at hv
    cases o with
    | none => cases hv
    | some w =>
      simp only [h]
      cases hl : page_locked with
      | false =>
        rw [hl] at hv
        simpa using hv
      | true =>
        rw [hl] at hv
        simp only [if_true] at hv
        by_cases hm : mlockOk w.baseAddr size = true
        · rw [if_pos hm] at hv
          simpa using hv
        · rw [if_neg hm] at hv
          cases hv

/-! ### Claims -/

/-- C1: the claim says that for every element type the buffer returned by
`aligned_vec` has element count `count` and capacity `max(capacity, count)`.
The code instead passes the shadowed byte counts to `Vec::from_raw_parts`:
for `size_of::<T>() = 2` (e.g. `T = u16`), `size = 1`, `capacity = 0`, the
returned vec records length 2 and capacity 2, where the claim requires
length 1 and capacity `max(0, 1) = 1`. -/
theorem c1_aligned_vec_len_is_bytes :
    ∃ v : RustVec Bool,
      (aligned_vec 2 4096 (fun _ _ => 0) 1 0 2 (none : Option Bool)).1 =
          some v ∧
        v.len = 2 ∧ v.capacity = 2 ∧ v.len ≠ 1 ∧ v.capacity ≠ 1 :=
  ⟨fromRawParts Bool 0 2 2, rfl, rfl, rfl, by decide, by decide⟩

/-- C2: for every element type with positive size and every `size > 0`,
`init_aligned_vec` leaves every element at an index in `[0, size)` equal
to the fill value `x`. -/
theorem c2_init_aligned_vec_filled (sizeT : Nat) (alloc : Nat → Nat → Nat)
    (size capacity align : Nat) (x : α) (hT : 0 < sizeT) (hs : 0 < size)
    (i : Nat) (hi : i < size) :
    ((init_aligned_vec sizeT alloc size capacity align x).1).data i = some x := by
  have hs0 : size ≠ 0 := hs.ne'
  have hle : size ≤ size * sizeT := by
    calc size = size * 1 := (Nat.mul_one size).symm
    _ ≤ size * sizeT := Nat.mul_le_mul_left size hT
  have hiB : i < size * sizeT := lt_of_lt_of_le hi hle
  simp [init_aligned_vec, if_neg hs0, RustVec.fill, fromRawParts, hiB]

theorem c2_witness :
    ((init_aligned_vec (α := Bool) 1 (fun _ _ => 0) 2 0 8 true).1).data 1 =
      some true :=
  c2_init_aligned_vec_filled 1 (fun _ _ => 0) 2 0 8 true (by decide)
    (by decide) 1 (by decide)

/-- C3: when `aligned_vec` is given a touch value and returns, the element
at index 0 and at every index that is a multiple of the page size and lies
below the byte size of the block equals the touch value: the loop steps
through the block by the page size in bytes and indexes the buffer with
those byte offsets regardless of the element type. -/
theorem c3_aligned_vec_touch (sizeT ps : Nat) (alloc : Nat → Nat → Nat)
    (size capacity align : Nat) (x : α) (v : RustVec α)
    (hv : (aligned_vec sizeT ps alloc size capacity align (some x)).1 = some v)
    (i : Nat) (hi : i < size * sizeT) (hmod : i % ps = 0) :
    v.data i = some x := by
  have hs0 : size ≠ 0 := by
    intro h
    rw [h, Nat.zero_mul] at hi
    exact Nat.not_lt_zero i hi
  simp only [aligned_vec, if_neg hs0] at hv
  exact touchLoop_mem x _ _ _ hv i ((stepIndices_mem _ _ _).mpr ⟨hi, hmod⟩)

theorem c3_witness :
    (((fromRawParts Bool 0 4 4).set 0 true).set 2 true).data 2 = some true :=
  c3_aligned_vec_touch 1 2 (fun _ _ => 0) 4 0 8 true
    (((fromRawParts Bool 0 4 4).set 0 true).set 2 true) rfl 2 (by decide)
    (by decide)

/-- C4: with `count == 0` each of the three constructors returns the empty
zero-capacity vec and performs no heap allocation, for every `align`,
`capacity` and `touch` argument (which are all ignored); for
`page_aligned_vec` this holds for both values of the lock flag, given that
the pinning facility succeeds on zero-length requests. -/
theorem c4_zero_count (sizeT ps : Nat) (alloc : Nat → Nat → Nat)
    (mlockOk : Nat → Nat → Bool) (capacity align : Nat) (touch : Option α)
    (x : α) (page_locked : Bool) (hml : ∀ a, mlockOk a 0 = true) :
    aligned_vec sizeT ps alloc 0 capacity align touch =
        (some (RustVec.new α), []) ∧
      init_aligned_vec sizeT alloc 0 capacity align x = (RustVec.new α, []) ∧
      (page_aligned_vec sizeT ps alloc mlockOk 0 capacity touch
          page_locked).1 = some (RustVec.new α) ∧
      (page_aligned_vec sizeT ps alloc mlockOk 0 capacity touch
          page_locked).2.1 = [] := by
  refine ⟨rfl, rfl, ?_, ?_⟩ <;>
    cases page_locked <;>
      simp [page_aligned_vec, aligned_vec, hml]

theorem c4_witness :
    aligned_vec (α := Bool) 1 4096 (fun _ _ => 3) 0 7 64 none =
        (some (RustVec.new Bool), []) ∧
      init_aligned_vec 1 (fun _ _ => 3) 0 7 64 true = (RustVec.new Bool, []) ∧
      (page_aligned_vec 1 4096 (fun _ _ => 3) (fun _ _ => true) 0 7
          (none : Option Bool) true).1 = some (RustVec.new Bool) ∧
      (page_aligned_vec 1 4096 (fun _ _ => 3) (fun _ _ => true) 0 7
          (none : Option Bool) true).2.1 = [] :=
  c4_zero_count 1 4096 (fun _ _ => 3) (fun _ _ => true) 7 64 none true true
    (fun _ => rfl)

/-- C5: with `lock = false`, `page_aligned_vec` returns exactly the result
of `aligned_vec` called with the page size as the alignment (same buffer,
same allocations) and issues no mlock call. -/
theorem c5_page_aligned_unlocked (sizeT ps : Nat) (alloc : Nat → Nat → Nat)
    (mlockOk : Nat → Nat → Bool) (size capacity : Nat) (touch : Option α) :
    page_aligned_vec sizeT ps alloc mlockOk size capacity touch false =
      ((aligned_vec sizeT ps alloc size capacity ps touch).1,
        (aligned_vec sizeT ps alloc size capacity ps touch).2, []) := by
  unfold page_aligned_vec
  cases h : aligned_vec sizeT ps alloc size capacity ps touch with
  | mk o allocs =>
    cases o <;> simp

/-- C6: counterexample. The claim says that with `count == 0` and
`lock = true` the code makes no memory-pinning call; in fact it does issue
one mlock call, on the empty vec's dangling pointer with byte length 0, so
the list of mlock calls is nonempty. -/
theorem c6_counterexample :
    (page_aligned_vec (α := Bool) 1 4096 (fun _ _ => 0) (fun _ _ => true) 0 0
          none true).2.2 = [(1, 0)] ∧
      (page_aligned_vec (α := Bool) 1 4096 (fun _ _ => 0) (fun _ _ => true) 0 0
          none true).2.2 ≠ [] :=
  ⟨rfl, by decide⟩

/-- C6 (amended): with `count == 0` and `lock = true`, `page_aligned_vec`
does not ignore the lock flag: it performs no allocation but still issues
exactly one memory-pinning call, on the empty vec's dangling pointer with
byte length 0. If that call succeeds it returns the empty buffer of the
raw allocator's `count == 0` case; if it fails (as a zero-length `mlock`
on a non-page-aligned dangling pointer does on Linux) the `.unwrap()`
panics and nothing is returned. -/
theorem c6_zero_count_locked_call (sizeT ps : Nat) (alloc : Nat → Nat → Nat)
    (mlockOk : Nat → Nat → Bool) (capacity : Nat) (touch : Option α) :
    page_aligned_vec sizeT ps alloc mlockOk 0 capacity touch true =
      ((if mlockOk (RustVec.new α).baseAddr 0 then some (RustVec.new α)
          else none),
        [], [((RustVec.new α).baseAddr, 0)]) := by
  by_cases hml : mlockOk (RustVec.new α).baseAddr 0 = true
  · simp [page_aligned_vec, aligned_vec, hml]
  · rw [Bool.not_eq_true] at hml
    simp [page_aligned_vec, aligned_vec, hml]

/-- C7: when `lock = true` and the mlock call fails, `page_aligned_vec`
panics (the `.unwrap()`, modelled as `none`) instead of returning an
unlocked buffer; the constructors' return types carry no recoverable
error value, so the failure is fatal. -/
theorem c7_mlock_failure_fatal (sizeT ps : Nat) (alloc : Nat → Nat → Nat)
    (mlockOk : Nat → Nat → Bool) (size capacity : Nat) (touch : Option α)
    (v : RustVec α)
    (hv : (aligned_vec sizeT ps alloc size capacity ps touch).1 = some v)
    (hfail : mlockOk v.baseAddr size = false) :
    (page_aligned_vec sizeT ps alloc mlockOk size capacity touch true).1 =
      none := by
  unfold page_aligned_vec
  cases h : aligned_vec sizeT ps alloc size capacity ps touch with
  | mk o allocs =>
    rw [h] at hv
    simp only at hv
    subst hv
    simp [hfail]

theorem c7_witness :
    (page_aligned_vec (α := Bool) 1 4096 (fun _ _ => 0) (fun _ _ => false) 1 0
        none true).1 = none :=
  c7_mlock_failure_fatal 1 4096 (fun _ _ => 0) (fun _ _ => false) 1 0 none
    (fromRawParts Bool 0 1 1) rfl rfl

/-- C8: every buffer returned by any of the three constructors records a
capacity at least as large as its length (hence capacity in bytes ≥ size
in bytes), and when the requested capacity is smaller than the requested
size the capacity is silently raised to equal the size. -/
theorem c8_capacity_invariant (sizeT ps : Nat) (alloc : Nat → Nat → Nat)
    (mlockOk : Nat → Nat → Bool) (size capacity align : Nat)
    (touch : Option α) (x : α) (page_locked : Bool) :
    (∀ v, (aligned_vec sizeT ps alloc size capacity align touch).1 = some v →
        v.len ≤ v.capacity ∧ (capacity < size → v.capacity = v.len)) ∧
      ((init_aligned_vec sizeT alloc size capacity align x).1.len ≤
          (init_aligned_vec sizeT alloc size capacity align x).1.capacity ∧
        (capacity < size →
          (init_aligned_vec sizeT alloc size capacity align x).1.capacity =
            (init_aligned_vec sizeT alloc size capacity align x).1.len)) ∧
      (∀ v, (page_aligned_vec sizeT ps alloc mlockOk size capacity touch
            page_locked).1 = some v →
        v.len ≤ v.capacity ∧ (capacity < size → v.capacity = v.len)) := by
  have key : ∀ (al : Nat) (tch : Option α) (v : RustVec α),
      (aligned_vec sizeT ps alloc size capacity al tch).1 = some v →
      v.len ≤ v.capacity ∧ (capacity < size → v.capacity = v.len) := by
    intro al tch v hv
    rcases aligned_vec_shape sizeT ps alloc size capacity al tch v hv with
      ⟨_, hnew⟩ | ⟨hpos, hlen, hcap, _⟩
    · subst hnew
      exact ⟨Nat.le_refl 0, fun h => rfl⟩
    · constructor
      · rw [hlen, hcap]
        exact Nat.le_max_right _ _
      · intro hlt
        rw [hlen, hcap]
        exact Nat.max_eq_right (Nat.mul_le_mul_right sizeT (Nat.le_of_lt hlt))
  refine ⟨key align touch, ?_, ?_⟩
  · by_cases hs : size = 0
    · subst hs
      simp [init_aligned_vec, RustVec.new]
    · constructor
      · simp only [init_aligned_vec, if_neg hs]
        exact Nat.le_max_right _ _
      · intro hlt
        simp only [init_aligned_vec, if_neg hs]
        exact Nat.max_eq_right (Nat.mul_le_mul_right sizeT (Nat.le_of_lt hlt))
  · intro v hv
    exact key ps touch v
      (page_aligned_vec_some sizeT ps alloc mlockOk size capacity touch
        page_locked v hv)

theorem c8_witness :
    ((fromRawParts Bool 0 2 2).len ≤ (fromRawParts Bool 0 2 2).capacity ∧
        (fromRawParts Bool 0 2 2).capacity = (fromRawParts Bool 0 2 2).len) ∧
      ((init_aligned_vec (α := Bool) 1 (fun _ _ => 0) 2 1 8 true).1.len ≤
        (init_aligned_vec (α := Bool) 1 (fun _ _ => 0) 2 1 8 true).1.capacity) := by
  have h := c8_capacity_invariant 1 4096 (fun _ _ => 0) (fun _ _ => true) 2 1 8
    (none : Option Bool) true false
  exact ⟨⟨(h.1 (fromRawParts Bool 0 2 2) rfl).1,
      (h.1 (fromRawParts Bool 0 2 2) rfl).2 (by decide)⟩,
    h.2.1.1⟩

/-- C9: for `count > 0` and a power-of-two alignment, given an allocator
that honours the alignment of the layout it is handed (returned addresses
are multiples of the requested alignment), the base address of the buffer
returned by `aligned_vec` is a multiple of `align`. -/
theorem c9_base_aligned (sizeT ps : Nat) (alloc : Nat → Nat → Nat)
    (size capacity align : Nat) (touch : Option α) (v : RustVec α)
    (hpow : ∃ k, align = 2 ^ k) (halloc : ∀ s a, a ∣ alloc s a)
    (hs : 0 < size)
    (hv : (aligned_vec sizeT ps alloc size capacity align touch).1 = some v) :
    v.baseAddr % align = 0 := by
  rcases aligned_vec_shape sizeT ps alloc size capacity align touch v hv with
    ⟨h0, _⟩ | ⟨_, _, _, hb⟩
  · exact absurd h0 hs.ne'
  · obtain ⟨c, hc⟩ := halloc (size * sizeT) align
    rw [hb, hc]
    exact Nat.mul_mod_right align c

theorem c9_witness :
    (fromRawParts Bool 4 1 1).baseAddr % 4 = 0 :=
  c9_base_aligned 1 4096 (fun _ a => a) 1 0 4 none (fromRawParts Bool 4 1 1)
    ⟨2, rfl⟩ (fun _ a => dvd_refl a) (by decide) rfl

/-- C10: with `size > 0`, a positive page size and a touch value supplied,
every index visited by the touch loop (the multiples of the page size
below `size * size_of::<T>()`) is strictly below the length of the vec
being indexed (which is `size * size_of::<T>()`), so the indexed write
stays in bounds and `aligned_vec` cannot panic. -/
theorem c10_touch_in_bounds (sizeT ps : Nat) (alloc : Nat → Nat → Nat)
    (size capacity align : Nat) (x : α) (hps : 0 < ps) (hs : 0 < size) :
    (∀ i ∈ stepIndices (size * sizeT) ps,
        i < (fromRawParts α (alloc (size * sizeT) align) (size * sizeT)
          (max (capacity * sizeT) (size * sizeT))).len) ∧
      (aligned_vec sizeT ps alloc size capacity align (some x)).1 ≠ none := by
  have hbound : ∀ i ∈ stepIndices (size * sizeT) ps, i < size * sizeT :=
    fun i hi => ((stepIndices_mem _ _ _).mp hi).1
  constructor
  · exact hbound
  · simp only [aligned_vec, if_neg hs.ne']
    obtain ⟨w, hw⟩ := touchLoop_total x (stepIndices (size * sizeT) ps)
      (fromRawParts α (alloc (size * sizeT) align) (size * sizeT)
        (max (capacity * sizeT) (size * sizeT))) hbound
    simp [hw]

theorem c10_witness :
    (aligned_vec (α := Bool) 1 2 (fun _ _ => 0) 6 0 8 (some true)).1 ≠ none :=
  (c10_touch_in_bounds 1 2 (fun _ _ => 0) 6 0 8 true (by decide) (by decide)).2

end AlignedVec
